import Mathlib

/-!
Verification development for the run-scoped coordination substrate of the
PedagogyAI repository: the structured-recovery pipeline
(`src/utils/json_parser.py`, `src/agents/research/utils/json_utils.py`),
the citation registry (`src/agents/solve/solve_loop/citation_manager.py`),
the performance tracker (`src/agents/solve/utils/performance_monitor.py`),
and the progress hub (`src/api/utils/progress_broadcaster.py`).

Conventions of the shallow embedding:
* Python strings are `List Char` (with `String` used for dictionary keys);
  Python dicts are association lists that preserve insertion order, with
  assignment replacing an existing key in place and appending fresh keys,
  exactly as CPython dicts behave.
* JSON values are modelled by the inductive type `Json` below, restricted
  to the integer fragment of JSON numbers (no floats; none of the verified
  properties depend on non-integer numerals).
* `json.loads` is modelled by the total, fuel-driven parser `loads`;
  failure (`json.JSONDecodeError`) is `none`.
* The optional third-party `json_repair.repair_json` capability is passed
  explicitly as an `Option (List Char → List Char)` parameter: `none`
  models the `ImportError` branch where the library is absent.
* Wall-clock readings (`time.time()`) are passed explicitly as integer
  timestamps.
-/

/-! ### JSON values -/

/-- Shallow embedding of the JSON-like values produced by `json.loads`
(integer fragment of numbers). -/
inductive Json where
  | null : Json
  | bool : Bool → Json
  | num : Int → Json
  | str : String → Json
  | arr : List Json → Json
  | obj : List (String × Json) → Json

/-! ### Character classes

`jsonWs` is the whitespace set of the JSON grammar (used by `json.loads`);
`pyWs` is the default whitespace set of Python's `str.strip` and of the
regex class `\s` on the ASCII fragment relevant here. -/

def jsonWs (c : Char) : Bool :=
  c = ' ' || c = '\t' || c = '\n' || c = '\r'

def pyWs (c : Char) : Bool :=
  c = ' ' || c = '\t' || c = '\n' || c = '\r' || c = '\x0b' || c = '\x0c'

/-- Python `str.strip()` on the default whitespace set. -/
def pyStrip (cs : List Char) : List Char :=
  (cs.dropWhile pyWs).rdropWhile pyWs

def skipJsonWs (cs : List Char) : List Char := cs.dropWhile jsonWs

/-! ### The `json.loads` model: a total fuel-driven parser -/

def hexVal (c : Char) : Option Nat :=
  if '0' ≤ c ∧ c ≤ '9' then some (c.toNat - 48)
  else if 'a' ≤ c ∧ c ≤ 'f' then some (c.toNat - 87)
  else if 'A' ≤ c ∧ c ≤ 'F' then some (c.toNat - 55)
  else none

/-- Body of a JSON string literal after the opening quote: returns the
decoded characters and the remaining input after the closing quote. -/
def parseStringBody : Nat → List Char → Option (List Char × List Char)
  | 0, _ => none
  | _ + 1, [] => none
  | fuel + 1, c :: rest =>
    if c = '"' then some ([], rest)
    else if c = '\\' then
      match rest with
      | [] => none
      | e :: rest2 =>
        if e = '"' ∨ e = '\\' ∨ e = '/' then
          (parseStringBody fuel rest2).map (fun p => (e :: p.1, p.2))
        else if e = 'b' then
          (parseStringBody fuel rest2).map (fun p => ('\x08' :: p.1, p.2))
        else if e = 'f' then
          (parseStringBody fuel rest2).map (fun p => ('\x0c' :: p.1, p.2))
        else if e = 'n' then
          (parseStringBody fuel rest2).map (fun p => ('\n' :: p.1, p.2))
        else if e = 'r' then
          (parseStringBody fuel rest2).map (fun p => ('\r' :: p.1, p.2))
        else if e = 't' then
          (parseStringBody fuel rest2).map (fun p => ('\t' :: p.1, p.2))
        else if e = 'u' then
          match rest2 with
          | h1 :: h2 :: h3 :: h4 :: rest3 =>
            match hexVal h1, hexVal h2, hexVal h3, hexVal h4 with
            | some a, some b, some c', some d =>
              (parseStringBody fuel rest3).map
                (fun p => (Char.ofNat (((a * 16 + b) * 16 + c') * 16 + d) :: p.1, p.2))
            | _, _, _, _ => none
          | _ => none
        else none
    else if c.toNat < 32 then none
    else (parseStringBody fuel rest).map (fun p => (c :: p.1, p.2))

def isDigit (c : Char) : Bool := '0' ≤ c && c ≤ '9'

def digitsToNat (ds : List Char) : Nat :=
  ds.foldl (fun acc c => acc * 10 + (c.toNat - 48)) 0

/-- JSON integer literal (strict: no leading zeros, and a following `.`,
`e` or `E` — a float — is outside the modelled integer fragment). -/
def parseIntLit (cs : List Char) : Option (Int × List Char) :=
  let (neg, cs1) :=
    match cs with
    | '-' :: rest => (true, rest)
    | _ => (false, cs)
  let ds := cs1.takeWhile isDigit
  let rest := cs1.dropWhile isDigit
  if ds = [] then none
  else if ds.length > 1 ∧ ds.headD '0' = '0' then none
  else
    match rest with
    | '.' :: _ => none
    | 'e' :: _ => none
    | 'E' :: _ => none
    | _ =>
      let n : Int := Int.ofNat (digitsToNat ds)
      some (if neg then -n else n, rest)

mutual

/-- One JSON value, leading whitespace allowed. -/
def parseValue : Nat → List Char → Option (Json × List Char)
  | 0, _ => none
  | fuel + 1, cs =>
    match skipJsonWs cs with
    | [] => none
    | c :: rest =>
      if c = 'n' then
        if ['u', 'l', 'l'].isPrefixOf rest then some (.null, rest.drop 3) else none
      else if c = 't' then
        if ['r', 'u', 'e'].isPrefixOf rest then some (.bool true, rest.drop 3) else none
      else if c = 'f' then
        if ['a', 'l', 's', 'e'].isPrefixOf rest then some (.bool false, rest.drop 4) else none
      else if c = '"' then
        (parseStringBody (fuel + 1) rest).map (fun p => (.str ⟨p.1⟩, p.2))
      else if c = '[' then
        match skipJsonWs rest with
        | ']' :: rest2 => some (.arr [], rest2)
        | rest2 => (parseElems fuel rest2).map (fun p => (.arr p.1, p.2))
      else if c = '{' then
        match skipJsonWs rest with
        | '}' :: rest2 => some (.obj [], rest2)
        | rest2 => (parseMembers fuel rest2).map (fun p => (.obj p.1, p.2))
      else
        (parseIntLit (c :: rest)).map (fun p => (.num p.1, p.2))

/-- Comma-separated array elements followed by `]`. -/
def parseElems : Nat → List Char → Option (List Json × List Char)
  | 0, _ => none
  | fuel + 1, cs =>
    (parseValue fuel cs).bind fun (v, rest) =>
      match skipJsonWs rest with
      | ',' :: rest2 => (parseElems fuel rest2).map (fun p => (v :: p.1, p.2))
      | ']' :: rest2 => some ([v], rest2)
      | _ => none

/-- Comma-separated `"key": value` members followed by `}`. -/
def parseMembers : Nat → List Char → Option (List (String × Json) × List Char)
  | 0, _ => none
  | fuel + 1, cs =>
    match skipJsonWs cs with
    | '"' :: rest =>
      (parseStringBody fuel rest).bind fun (key, rest1) =>
        match skipJsonWs rest1 with
        | ':' :: rest2 =>
          (parseValue fuel rest2).bind fun (v, rest3) =>
            match skipJsonWs rest3 with
            | ',' :: rest4 =>
              (parseMembers fuel rest4).map (fun p => ((⟨key⟩, v) :: p.1, p.2))
            | '}' :: rest4 => some ([(⟨key⟩, v)], rest4)
            | _ => none
        | _ => none
    | _ => none

end

/-- Model of `json.loads`: parse one value and require only whitespace
after it; any error is `none`. -/
def loads (cs : List Char) : Option Json :=
  match parseValue (4 * cs.length + 16) cs with
  | some (v, rest) => if skipJsonWs rest = [] then some v else none
  | none => none

/-! ### Substring search and the concrete regex extractions

`splitFirst pat cs` returns the text before and after the leftmost
occurrence of `pat` in `cs` (the workhorse behind the specific regular
expressions used by the source; each regex below is reduced to leftmost
substring searches, which is justified in the comments at its model). -/

def splitFirst (pat : List Char) : List Char → Option (List Char × List Char)
  | [] => if pat.isPrefixOf ([] : List Char) then some ([], []) else none
  | c :: rest =>
    if pat.isPrefixOf (c :: rest) then some ([], (c :: rest).drop pat.length)
    else (splitFirst pat rest).map (fun p => (c :: p.1, p.2))

def containsSub (pat cs : List Char) : Bool := (splitFirst pat cs).isSome

/-- The backquote character (code 96). -/
def bq : Char := Char.ofNat 96

/-- The code-fence delimiter, three backquotes. -/
def fence3 : List Char := [bq, bq, bq]

def jsonTag : List Char := ['j', 's', 'o', 'n']

/-- Group 1 of `re.search(r"```(?:json)?\s*\n?(.*?)```", text, re.DOTALL)`
(the markdown-extraction regex of `parse_json_response`).

The regex is reduced to substring searches as follows: a match must start
at an occurrence of the fence; if no closing fence follows the first
occurrence (after the optional `json` tag and greedily-consumed
whitespace, none of whose characters are backquotes) then no later start
can succeed either, so the leftmost match starts at the first fence.
`(?:json)?` and `\s*` are greedy, and since the characters they consume
contain no backquote, backtracking them cannot turn failure into success;
`\n?` after `\s*` is inert.  The lazy group `(.*?)` therefore ends at the
first fence occurrence after the consumed prefix. -/
def fenceCapture (cs : List Char) : Option (List Char) :=
  (splitFirst fence3 cs).bind fun p =>
    let r1 := if jsonTag.isPrefixOf p.2 then p.2.drop 4 else p.2
    let r2 := r1.dropWhile pyWs
    (splitFirst fence3 r2).map (fun q => q.1)

/-- Group 1 of `re.search(r"```(?:json)?\s*([\s\S]*?)\s*```", text)`
(the code-block regex of `extract_json_from_text`).  Same reduction as
`fenceCapture`; the trailing `\s*` before the closing fence makes the lazy
group end at the first fence occurrence with the whitespace run before it
excluded, i.e. the capture is right-stripped. -/
def fenceCapture2 (cs : List Char) : Option (List Char) :=
  (splitFirst fence3 cs).bind fun p =>
    let r1 := if jsonTag.isPrefixOf p.2 then p.2.drop 4 else p.2
    let r2 := r1.dropWhile pyWs
    (splitFirst fence3 r2).map (fun q => q.1.rdropWhile pyWs)

/-- Group 0 of the object-fragment regex of `extract_json_from_text`
(an opening brace, then a greedy any-character run, then a closing
brace): greedy, so the match runs from the first opening brace to the
last closing brace after it (a later starting brace sees only a subset
of the closing braces, so the leftmost start is the first one). -/
def braceSpan (cs : List Char) : Option (List Char) :=
  (splitFirst ['{'] cs).bind fun p =>
    let body := p.2.rdropWhile (fun c => c ≠ '}')
    if body = [] then none else some ('{' :: body)

/-- Group 0 of the array-fragment regex of `extract_json_from_text`,
as `braceSpan` with square brackets. -/
def bracketSpan (cs : List Char) : Option (List Char) :=
  (splitFirst ['['] cs).bind fun p =>
    let body := p.2.rdropWhile (fun c => c ≠ ']')
    if body = [] then none else some ('[' :: body)

/-! ### `parse_json_response` (src/utils/json_parser.py) -/

/-- The `extracted_response` value computed by `parse_json_response`:
the markdown-code-block capture, stripped, when the text contains a fence
and the regex matches; otherwise the raw response. -/
def extractedOf (response : List Char) : List Char :=
  if containsSub fence3 response then
    match fenceCapture response with
    | some g => pyStrip g
    | none => response
  else response

/-- Model of `parse_json_response(response, logger_instance, fallback)`.
`rep` models the optional `json_repair.repair_json` capability (`none`
when the library is absent); a repair call that raises is modelled by a
repaired string that fails to parse.  Logging is state-free and omitted. -/
def parse_json_response (response : List Char) (fallback : Option Json)
    (rep : Option (List Char → List Char)) : Json :=
  let fb := match fallback with | none => Json.obj [] | some v => v
  if pyStrip response = [] then fb
  else
    let extracted := extractedOf response
    match loads extracted with
    | some v => v
    | none =>
      match rep with
      | none => fb
      | some r =>
        match loads (r extracted) with
        | some v => v
        | none => fb

/-! ### `extract_json_from_text` and the validation helpers
(src/agents/research/utils/json_utils.py) -/

/-- Model of `extract_json_from_text(text)`: code block, then the whole
text, then the first `{...}` fragment, then the first `[...]` fragment. -/
def extract_json_from_text (text : List Char) : Option Json :=
  if text = [] then none
  else
    match (fenceCapture2 text).bind (fun cap => loads (pyStrip cap)) with
    | some v => some v
    | none =>
      match loads text with
      | some v => some v
      | none =>
        match (braceSpan text).bind loads with
        | some v => some v
        | none =>
          match (bracketSpan text).bind loads with
          | some v => some v
          | none => none

def hasKey (m : List (String × Json)) (k : String) : Bool :=
  m.any (fun p => p.1 == k)

/-- Python `", ".join` over the rendered key list. -/
def joinComma : List String → List Char
  | [] => []
  | [s] => s.data
  | s :: rest => s.data ++ ',' :: ' ' :: joinComma rest

/-- Model of `ensure_keys(data, keys)`: the `KeyError` carries the message
listing every missing key; the error side of `Except` is that message. -/
def ensure_keys (data : List (String × Json)) (keys : List String) :
    Except (List Char) (List (String × Json)) :=
  let missing := keys.filter (fun k => ! hasKey data k)
  if missing = [] then .ok data
  else .error ("Missing required keys: ".data ++ joinComma missing)

/-! ### Python dictionaries as insertion-ordered association lists -/

/-- Python `d.get(k)` / `d[k]`. -/
def alookup {κ α : Type} [BEq κ] (m : List (κ × α)) (k : κ) : Option α :=
  match m with
  | [] => none
  | p :: rest => if p.1 == k then some p.2 else alookup rest k

/-- Python `k in d`. -/
def ahas {κ α : Type} [BEq κ] (m : List (κ × α)) (k : κ) : Bool :=
  m.any (fun p => p.1 == k)

/-- Python `d[k] = v`: replaces in place when the key is present (keeping
insertion order), appends otherwise — CPython dict assignment. -/
def aset {κ α : Type} [BEq κ] (m : List (κ × α)) (k : κ) (v : α) : List (κ × α) :=
  if ahas m k then m.map (fun p => if p.1 == k then (k, v) else p)
  else m ++ [(k, v)]

/-- Python `del d[k]` (and `dict.pop`): removes the key's entry. -/
def aremove {κ α : Type} [BEq κ] (m : List (κ × α)) (k : κ) : List (κ × α) :=
  m.filter (fun p => ¬ (p.1 == k))

/-- The keys of a dict, in insertion order (Python `d.keys()`). -/
def akeys {κ α : Type} (m : List (κ × α)) : List κ := m.map (fun p => p.1)

/-! ### Citation registry (src/agents/solve/solve_loop/citation_manager.py)

Decimal rendering of the counter, following Python `f"[\x7bn\x7d]"`. -/

def natDecimalAux : Nat → Nat → List Char
  | 0, _ => []
  | fuel + 1, n =>
    if n < 10 then [Nat.digitChar n]
    else natDecimalAux fuel (n / 10) ++ [Nat.digitChar (n % 10)]

def natDecimal (n : Nat) : List Char := natDecimalAux (n + 1) n

/-- The citation id string `[n]`. -/
def citeId (n : Nat) : String := ⟨'[' :: natDecimal n ++ [']']⟩

structure CitationRecord where
  knowledge_id : String
  reference_id : Option String
  source : Option String
  content : Option String
  citation_id : String
deriving DecidableEq, Repr

/-- The mutable state of a `CitationManager` (value-level view; the
object graph shared with snapshot callers is modelled separately below
for the frame claim). -/
structure CMState where
  citation_counter : Nat
  citation_map : List (String × CitationRecord)
deriving DecidableEq, Repr

def cmInit : CMState := ⟨0, []⟩

/-- Model of `CitationManager.allocate_citation_id`. -/
def allocate_citation_id (st : CMState) (knowledge_id : String)
    (reference_id source content : Option String) : CMState × String :=
  let n := st.citation_counter + 1
  let cid := citeId n
  let record : CitationRecord :=
    ⟨knowledge_id, reference_id, source, content, cid⟩
  (⟨n, aset st.citation_map cid record⟩, cid)

/-- Model of `CitationManager.get_citation_info`. -/
def get_citation_info (st : CMState) (cid : String) : Option CitationRecord :=
  alookup st.citation_map cid

/-- Model of `CitationManager.get_all_citations` (`self.citation_map.copy()`): at
the value level the snapshot equals the current map. -/
def get_all_citations (st : CMState) : List (String × CitationRecord) :=
  st.citation_map

/-- Model of `CitationManager.reset`. -/
def cmReset (_st : CMState) : CMState := ⟨0, []⟩

/-- One client call on the registry, for quantifying over call sequences. -/
inductive CMOp where
  | alloc (knowledge_id : String) (reference_id source content : Option String)
  | lookup (cid : String)
  | getAll
  | reset
deriving DecidableEq, Repr

def isAllocOp : CMOp → Bool
  | .alloc _ _ _ _ => true
  | _ => false

def cmStep (st : CMState) : CMOp → CMState
  | .alloc k r s c => (allocate_citation_id st k r s c).1
  | .lookup _ => st
  | .getAll => st
  | .reset => cmReset st

def cmRun (ops : List CMOp) : CMState := ops.foldl cmStep cmInit

/-! ### Performance tracker (src/agents/solve/utils/performance_monitor.py)

Wall-clock readings are passed in as integer timestamps; file persistence
(`save`) and printing are outside the modelled state. -/

structure PerformanceMetrics where
  agent_name : String
  start_time : Int
  end_time : Option Int := none
  duration : Option Int := none
  prompt_tokens : Nat := 0
  completion_tokens : Nat := 0
  total_tokens : Nat := 0
  api_calls : Nat := 0
  errors : Nat := 0
  custom_metrics : List (String × Json) := []

/-- Model of `PerformanceMetrics.mark_end`; `if self.start_time:` is Python float
truthiness, i.e. the duration is only computed for a nonzero start. -/
def markEnd (m : PerformanceMetrics) (now : Int) : PerformanceMetrics :=
  { m with end_time := some now,
           duration := if m.start_time ≠ 0 then some (now - m.start_time)
                       else m.duration }

/-- Model of `PerformanceMetrics.add_tokens`. -/
def addTokens (m : PerformanceMetrics) (prompt completion : Nat) : PerformanceMetrics :=
  { m with prompt_tokens := m.prompt_tokens + prompt,
           completion_tokens := m.completion_tokens + completion,
           total_tokens := (m.prompt_tokens + prompt) + (m.completion_tokens + completion) }

/-- Model of `PerformanceMetrics.add_api_call`. -/
def addApiCall (m : PerformanceMetrics) : PerformanceMetrics :=
  { m with api_calls := m.api_calls + 1 }

/-- Model of `PerformanceMetrics.add_error`. -/
def addError (m : PerformanceMetrics) : PerformanceMetrics :=
  { m with errors := m.errors + 1 }

structure PerformanceMonitor where
  enabled : Bool
  metrics : List (String × PerformanceMetrics) := []
  total_duration : Int := 0
  total_tokens : Nat := 0
  total_api_calls : Nat := 0
  total_errors : Nat := 0

/-- A freshly opened span, as built by `start_tracking`. -/
def freshSpan (agent_name : String) (now : Int) : PerformanceMetrics :=
  { agent_name := agent_name, start_time := now }

/-- Model of `PerformanceMonitor.start_tracking`: when disabled the span is
returned but not registered. -/
def start_tracking (m : PerformanceMonitor) (agent_name : String) (now : Int) :
    PerformanceMonitor × PerformanceMetrics :=
  let met := freshSpan agent_name now
  if m.enabled then
    ({ m with metrics := aset m.metrics agent_name met }, met)
  else (m, met)

/-- Model of `PerformanceMonitor.end_tracking`: closes the registered span (which
stays registered) and folds its metrics into the running totals whenever
the computed `duration` is truthy (present and nonzero). -/
def end_tracking (m : PerformanceMonitor) (agent_name : String) (now : Int) :
    PerformanceMonitor :=
  if m.enabled then
    match alookup m.metrics agent_name with
    | none => m
    | some met =>
      let met' := markEnd met now
      let m' := { m with metrics := aset m.metrics agent_name met' }
      match met'.duration with
      | some d =>
        if d ≠ 0 then
          { m' with total_duration := m'.total_duration + d,
                    total_tokens := m'.total_tokens + met'.total_tokens,
                    total_api_calls := m'.total_api_calls + met'.api_calls,
                    total_errors := m'.total_errors + met'.errors }
        else m'
      | none => m'
  else m

/-- Model of `PerformanceMonitor.track` (and the `track_performance` decorator,
whose wrapper has the same start/except-add-error/finally-end shape):
the protected operation is modelled by its effect `body` on the yielded
span object plus its `outcome`; when enabled, the span object is the
registered dict entry, so the body's updates and `add_error` land there. -/
def track {ε α : Type} (m : PerformanceMonitor) (agent_name : String)
    (tStart tEnd : Int) (body : PerformanceMetrics → PerformanceMetrics)
    (outcome : Except ε α) : PerformanceMonitor × Except ε α :=
  let sp := start_tracking m agent_name tStart
  let met1 := body sp.2
  let m2 := if sp.1.enabled then
      { sp.1 with metrics := aset sp.1.metrics agent_name met1 }
    else sp.1
  match outcome with
  | .ok a => (end_tracking m2 agent_name tEnd, .ok a)
  | .error e =>
    let m3 := if m2.enabled then
        match alookup m2.metrics agent_name with
        | some met => { m2 with metrics := aset m2.metrics agent_name (addError met) }
        | none => m2
      else m2
    (end_tracking m3 agent_name tEnd, .error e)

/-! ### Progress hub (src/api/utils/progress_broadcaster.py)

Subscriber sinks are opaque ids; whether a sink's `send_json` raises
during a given broadcast is an arbitrary predicate `fails`.  The
`async with self._lock` regions make each operation atomic, so the state
evolves by whole operations. -/

/-- The hub state, Python `_connections` mapping channel names to sink
sets (sets as duplicate-free
insertion-ordered lists). -/
abbrev HubState := List (String × List Nat)

/-- Model of `ProgressBroadcaster.connect`. -/
def hubConnect (st : HubState) (kb : String) (ws : Nat) : HubState :=
  match alookup st kb with
  | none => aset st kb [ws]
  | some subs => aset st kb (if ws ∈ subs then subs else subs ++ [ws])

/-- Model of `ProgressBroadcaster.disconnect`: `set.discard`, then delete the
channel if its subscriber set became empty. -/
def hubDisconnect (st : HubState) (kb : String) (ws : Nat) : HubState :=
  match alookup st kb with
  | none => st
  | some subs =>
    let subs' := subs.filter (fun w => w ≠ ws)
    if subs' = [] then aremove st kb else aset st kb subs'

/-- Model of `ProgressBroadcaster.broadcast`: attempts `send_json` on every
current subscriber (failures are caught and only collected), discards the
failed ones afterwards, and deletes the channel if it became empty.
Returns the new state and the sinks whose delivery succeeded. -/
def hubBroadcast (st : HubState) (kb : String) (fails : Nat → Bool) :
    HubState × List Nat :=
  match alookup st kb with
  | none => (st, [])
  | some subs =>
    let kept := subs.filter (fun w => ! fails w)
    (if kept = [] then aremove st kb else aset st kb kept, kept)

/-- Model of `ProgressBroadcaster.get_connection_count`. -/
def get_connection_count (st : HubState) (kb : String) : Nat :=
  ((alookup st kb).getD []).length

inductive HubOp where
  | connect (kb : String) (ws : Nat)
  | disconnect (kb : String) (ws : Nat)
  | broadcast (kb : String) (fails : Nat → Bool)

def hubStep (st : HubState) : HubOp → HubState
  | .connect kb ws => hubConnect st kb ws
  | .disconnect kb ws => hubDisconnect st kb ws
  | .broadcast kb fails => (hubBroadcast st kb fails).1

def hubRun (ops : List HubOp) : HubState := ops.foldl hubStep []

/-! ### Object-graph model of the citation registry snapshot (for the
frame claim about `get_all_citations`)

`dict.copy()` is a shallow copy: the snapshot is a fresh top-level dict
object whose entries alias the same per-citation record objects.  Heap
objects are addressed by `Nat` refs: `dicts` holds dict objects mapping
citation ids to record refs, `recs` holds the record objects (field
dicts). -/

inductive PyVal where
  | vstr (s : String)
  | vnone
deriving DecidableEq, Repr

def optVal : Option String → PyVal
  | none => .vnone
  | some s => .vstr s

structure CMHeapState where
  counter : Nat
  mapRef : Nat
  dicts : List (Nat × List (String × Nat))
  recs : List (Nat × List (String × PyVal))
  nextRef : Nat
deriving DecidableEq, Repr

def cmHeapInit : CMHeapState := ⟨0, 0, [(0, [])], [], 1⟩

/-- Model of `allocate_citation_id` on the object graph: builds a fresh record
object and binds it in the registry's own dict. -/
def cmHeapAlloc (st : CMHeapState) (knowledge_id : String)
    (reference_id source content : Option String) : CMHeapState × String :=
  let n := st.counter + 1
  let cid := citeId n
  let fields : List (String × PyVal) :=
    [("knowledge_id", .vstr knowledge_id), ("reference_id", optVal reference_id),
     ("source", optVal source), ("content", optVal content),
     ("citation_id", .vstr cid)]
  let r := st.nextRef
  let entries := (alookup st.dicts st.mapRef).getD []
  ({ st with counter := n,
             recs := st.recs ++ [(r, fields)],
             dicts := aset st.dicts st.mapRef (aset entries cid r),
             nextRef := r + 1 }, cid)

/-- Model of `get_all_citations` on the object graph: `self.citation_map.copy()`
allocates a fresh dict object with the same entries (sharing the record
refs) and hands its ref to the caller. -/
def cmHeapGetAll (st : CMHeapState) : CMHeapState × Nat :=
  let d := st.nextRef
  let entries := (alookup st.dicts st.mapRef).getD []
  ({ st with dicts := st.dicts ++ [(d, entries)], nextRef := d + 1 }, d)

/-- Model of `get_citation_info` on the object graph: read the registry's dict,
then dereference the record. -/
def cmHeapLookup (st : CMHeapState) (cid : String) : Option (List (String × PyVal)) :=
  (alookup ((alookup st.dicts st.mapRef).getD []) cid).bind
    (fun r => alookup st.recs r)

/-- A caller-side read `snapshot[cid]` through a dict ref. -/
def dictGet (st : CMHeapState) (d : Nat) (cid : String) : Option Nat :=
  alookup ((alookup st.dicts d).getD []) cid

/-- A caller-side top-level write `snapshot[cid] = r` on a dict object. -/
def dictSetEntry (st : CMHeapState) (d : Nat) (cid : String) (r : Nat) : CMHeapState :=
  { st with dicts := aset st.dicts d (aset ((alookup st.dicts d).getD []) cid r) }

/-- A caller-side top-level delete `del snapshot[cid]` on a dict object. -/
def dictDelEntry (st : CMHeapState) (d : Nat) (cid : String) : CMHeapState :=
  { st with dicts := aset st.dicts d (aremove ((alookup st.dicts d).getD []) cid) }

/-- A caller-side nested write `record[k] = v` on a record object. -/
def recSetField (st : CMHeapState) (r : Nat) (k : String) (v : PyVal) : CMHeapState :=
  { st with recs := aset st.recs r (aset ((alookup st.recs r).getD []) k v) }

/-! ### Spec-side tier pipeline (for the refinement claim about tier
order)

These definitions follow the words of the specification — "an ordered
list of pure parser-attempt functions, each returning an optional success
value; the pipeline tries each in order and stops at first success" — to
be compared with the source-shaped `extract_json_from_text` above. -/

def firstSome (fs : List (List Char → Option Json)) (text : List Char) : Option Json :=
  match fs with
  | [] => none
  | f :: rest =>
    match f text with
    | some v => some v
    | none => firstSome rest text

/-- Spec tier 1: code-fence extraction, then parse of the stripped
content. -/
def tierCodeFence (text : List Char) : Option Json :=
  (fenceCapture2 text).bind (fun cap => loads (pyStrip cap))

/-- Spec tier 2: direct parse of the whole text. -/
def tierDirect (text : List Char) : Option Json := loads text

/-- Spec tier 3a: first `\x7b...\x7d` span, greedy outermost. -/
def tierObjectFragment (text : List Char) : Option Json :=
  (braceSpan text).bind loads

/-- Spec tier 3b: first `[...]` span, greedy outermost. -/
def tierArrayFragment (text : List Char) : Option Json :=
  (bracketSpan text).bind loads

/-- The spec's recovery tier order for `extract_json_from_text`. -/
def specTierOrder : List (List Char → Option Json) :=
  [tierCodeFence, tierDirect, tierObjectFragment, tierArrayFragment]

/-! ## Lemmas about the dictionary helpers -/

theorem ahas_iff_mem_akeys {κ α : Type} [BEq κ] [LawfulBEq κ]
    (m : List (κ × α)) (k : κ) : ahas m k = true ↔ k ∈ akeys m := by
  simp [ahas, akeys, List.any_eq_true, List.mem_map, beq_iff_eq]

theorem ahas_eq_false_iff {κ α : Type} [BEq κ] [LawfulBEq κ]
    (m : List (κ × α)) (k : κ) :
    ahas m k = false ↔ ∀ p ∈ m, p.1 ≠ k := by
  simp [ahas, List.any_eq_false, beq_iff_eq]

theorem alookup_map_replace {κ α : Type} [BEq κ] [LawfulBEq κ]
    (m : List (κ × α)) (k : κ) (v : α) (h : ahas m k = true) :
    alookup (m.map (fun p => if p.1 == k then (k, v) else p)) k = some v := by
  induction m with
  | nil => simp [ahas] at h
  | cons p rest ih =>
    cases hp : p.1 == k
    · have h' : ahas rest k = true := by
        simpa [ahas, hp] using h
      simp [alookup, hp, ih h']
    · simp [alookup, hp]

theorem alookup_append_right {κ α : Type} [BEq κ] [LawfulBEq κ]
    (m m' : List (κ × α)) (k : κ) (h : ahas m k = false) :
    alookup (m ++ m') k = alookup m' k := by
  induction m with
  | nil => simp
  | cons p rest ih =>
    rw [ahas_eq_false_iff] at h
    have hp : (p.1 == k) = false := by
      simpa using h p (List.mem_cons_self p rest)
    have h' : ahas rest k = false := by
      rw [ahas_eq_false_iff]
      exact fun q hq => h q (List.mem_cons_of_mem p hq)
    simp only [List.cons_append, alookup, hp, if_false]
    exact ih h'

theorem alookup_aset_self {κ α : Type} [BEq κ] [LawfulBEq κ]
    (m : List (κ × α)) (k : κ) (v : α) : alookup (aset m k v) k = some v := by
  unfold aset
  cases h : ahas m k
  · simp only [Bool.false_eq_true, if_false]
    rw [alookup_append_right m [(k, v)] k h]
    simp [alookup]
  · simp only [if_true]
    exact alookup_map_replace m k v h

theorem alookup_append_single_ne {κ α : Type} [BEq κ] [LawfulBEq κ]
    (m : List (κ × α)) (k k' : κ) (v : α) (h : k' ≠ k) :
    alookup (m ++ [(k, v)]) k' = alookup m k' := by
  induction m with
  | nil =>
    have : (k == k') = false := by
      simp [beq_iff_eq]
      exact Ne.symm h
    simp [alookup, this]
  | cons p rest ih =>
    cases hp : p.1 == k'
    · simp only [List.cons_append, alookup, hp, if_false]
      exact ih
    · simp [alookup, hp]

theorem alookup_map_replace_ne {κ α : Type} [BEq κ] [LawfulBEq κ]
    (m : List (κ × α)) (k k' : κ) (v : α) (h : k' ≠ k) :
    alookup (m.map (fun p => if p.1 == k then (k, v) else p)) k' = alookup m k' := by
  induction m with
  | nil => simp
  | cons p rest ih =>
    cases hpk : p.1 == k
    · simp only [List.map_cons, hpk, Bool.false_eq_true, if_false]
      cases hp : p.1 == k'
      · simp only [alookup, hp, if_false]
        exact ih
      · simp [alookup, hp]
    · have hk : p.1 = k := by simpa [beq_iff_eq] using hpk
      have h1 : (k == k') = false := by
        simp [beq_iff_eq]
        exact Ne.symm h
      have h2 : (p.1 == k') = false := by
        rw [hk]
        exact h1
      simp only [List.map_cons, hpk, if_true, alookup, h1, h2, if_false]
      exact ih

theorem alookup_aset_ne {κ α : Type} [BEq κ] [LawfulBEq κ]
    (m : List (κ × α)) (k k' : κ) (v : α) (h : k' ≠ k) :
    alookup (aset m k v) k' = alookup m k' := by
  unfold aset
  cases hh : ahas m k
  · simp only [Bool.false_eq_true, if_false]
    exact alookup_append_single_ne m k k' v h
  · simp only [if_true]
    exact alookup_map_replace_ne m k k' v h

theorem alookup_aremove_self {κ α : Type} [BEq κ] [LawfulBEq κ]
    (m : List (κ × α)) (k : κ) : alookup (aremove m k) k = none := by
  induction m with
  | nil => simp [aremove, alookup]
  | cons p rest ih =>
    cases hp : p.1 == k
    · simp [aremove, alookup, hp] at ih ⊢
      exact ih
    · simp [aremove, alookup, hp] at ih ⊢
      exact ih

theorem mem_aset {κ α : Type} [BEq κ] [LawfulBEq κ]
    (m : List (κ × α)) (k : κ) (v : α) (p : κ × α) (hp : p ∈ aset m k v) :
    p = (k, v) ∨ p ∈ m := by
  unfold aset at hp
  cases hh : ahas m k <;> rw [hh] at hp
  · simp at hp
    rcases hp with hp | hp
    · right
      exact hp
    · left
      exact hp
  · simp only [if_true, List.mem_map] at hp
    rcases hp with ⟨q, hq, he⟩
    cases hqk : q.1 == k <;> rw [hqk] at he <;> simp at he
    · right
      rw [← he]
      exact hq
    · left
      rw [← he]

theorem mem_aremove {κ α : Type} [BEq κ]
    (m : List (κ × α)) (k : κ) (p : κ × α) (hp : p ∈ aremove m k) : p ∈ m :=
  (List.mem_filter.mp hp).1

theorem akeys_aset_of_not_has {κ α : Type} [BEq κ]
    (m : List (κ × α)) (k : κ) (v : α) (h : ahas m k = false) :
    akeys (aset m k v) = akeys m ++ [k] := by
  simp [aset, h, akeys]

/-! ## Decimal rendering and citation-id lemmas -/

theorem digitsToNat_append (ds : List Char) (c : Char) :
    digitsToNat (ds ++ [c]) = digitsToNat ds * 10 + (c.toNat - 48) := by
  simp [digitsToNat, List.foldl_append]

theorem digitChar_val : ∀ k, k < 10 → (Nat.digitChar k).toNat - 48 = k := by decide

theorem natDecimalAux_congr : ∀ f g n : Nat, n < f → n < g →
    natDecimalAux f n = natDecimalAux g n := by
  intro f
  induction f with
  | zero => intro g n h; omega
  | succ f2 ih =>
    intro g n hf hg
    cases g with
    | zero => omega
    | succ g2 =>
      show (if n < 10 then [Nat.digitChar n]
          else natDecimalAux f2 (n / 10) ++ [Nat.digitChar (n % 10)])
        = (if n < 10 then [Nat.digitChar n]
          else natDecimalAux g2 (n / 10) ++ [Nat.digitChar (n % 10)])
      by_cases h : n < 10
      · rw [if_pos h, if_pos h]
      · have hdiv : n / 10 < n := Nat.div_lt_self (by omega) (by omega)
        rw [if_neg h, if_neg h, ih g2 (n / 10) (by omega) (by omega)]

theorem natDecimal_unfold (n : Nat) :
    natDecimal n = if n < 10 then [Nat.digitChar n]
      else natDecimal (n / 10) ++ [Nat.digitChar (n % 10)] := by
  show (if n < 10 then [Nat.digitChar n]
      else natDecimalAux n (n / 10) ++ [Nat.digitChar (n % 10)])
    = (if n < 10 then [Nat.digitChar n]
      else natDecimalAux (n / 10 + 1) (n / 10) ++ [Nat.digitChar (n % 10)])
  by_cases h : n < 10
  · rw [if_pos h, if_pos h]
  · have hdiv : n / 10 < n := Nat.div_lt_self (by omega) (by omega)
    rw [if_neg h, if_neg h,
      natDecimalAux_congr n (n / 10 + 1) (n / 10) (by omega) (by omega)]

theorem digitsToNat_natDecimal : ∀ n, digitsToNat (natDecimal n) = n := by
  intro n
  induction n using Nat.strong_induction_on with
  | _ n ih =>
    rw [natDecimal_unfold]
    by_cases h : n < 10
    · simp only [h, if_pos, digitsToNat, List.foldl_cons, List.foldl_nil, Nat.zero_mul,
        Nat.zero_add]
      exact digitChar_val n h
    · rw [if_neg h, digitsToNat_append,
        ih (n / 10) (Nat.div_lt_self (by omega) (by omega)),
        digitChar_val (n % 10) (Nat.mod_lt n (by omega))]
      omega

theorem natDecimal_inj (m n : Nat) (h : natDecimal m = natDecimal n) : m = n := by
  have hm := digitsToNat_natDecimal m
  rw [h, digitsToNat_natDecimal] at hm
  omega

theorem citeId_inj (m n : Nat) (h : citeId m = citeId n) : m = n := by
  unfold citeId at h
  have hd : '[' :: natDecimal m ++ [']'] = '[' :: natDecimal n ++ [']'] :=
    congrArg String.data h
  have h1 : natDecimal m ++ [']'] = natDecimal n ++ [']'] := List.tail_eq_of_cons_eq hd
  have h2 : natDecimal m = natDecimal n :=
    (List.append_inj' h1 rfl).1
  exact natDecimal_inj m n h2

/-! ## Claim C1 support: the registry key invariant -/

/-- The registry invariant: the keys of the map, in insertion order, are
exactly `[1] … [counter]`. -/
def cmKeyInv (st : CMState) : Prop :=
  akeys st.citation_map = (List.range st.citation_counter).map (fun i => citeId (i + 1))

theorem cmKeyInv_init : cmKeyInv cmInit := by
  simp [cmKeyInv, cmInit, akeys]

theorem cmKeyInv_step (st : CMState) (op : CMOp) (h : cmKeyInv st) :
    cmKeyInv (cmStep st op) := by
  cases op with
  | alloc k r s c =>
    have hfresh : ahas st.citation_map (citeId (st.citation_counter + 1)) = false := by
      cases hh : ahas st.citation_map (citeId (st.citation_counter + 1))
      · rfl
      · exfalso
        have hmem := (ahas_iff_mem_akeys st.citation_map
          (citeId (st.citation_counter + 1))).mp hh
        rw [h] at hmem
        rcases List.mem_map.mp hmem with ⟨i, hi, he⟩
        have : i + 1 = st.citation_counter + 1 := citeId_inj _ _ he
        have : i = st.citation_counter := by omega
        rw [this] at hi
        exact Nat.lt_irrefl _ (List.mem_range.mp hi)
    show cmKeyInv (allocate_citation_id st k r s c).1
    unfold cmKeyInv allocate_citation_id
    simp only
    rw [akeys_aset_of_not_has _ _ _ hfresh, h, List.range_succ, List.map_append]
    rfl
  | lookup cid => exact h
  | getAll => exact h
  | reset => simp [cmStep, cmReset, cmKeyInv, akeys]

theorem cmKeyInv_foldl (ops : List CMOp) :
    ∀ st, cmKeyInv st → cmKeyInv (ops.foldl cmStep st) := by
  induction ops with
  | nil => exact fun st h => h
  | cons op rest ih => exact fun st h => ih (cmStep st op) (cmKeyInv_step st op h)

theorem counter_foldl_no_reset (post : List CMOp) :
    ∀ st, (∀ op ∈ post, op ≠ CMOp.reset) →
      (post.foldl cmStep st).citation_counter =
        st.citation_counter + post.countP (fun op => isAllocOp op) := by
  induction post with
  | nil => simp
  | cons op rest ih =>
    intro st hno
    have hrest : ∀ o ∈ rest, o ≠ CMOp.reset :=
      fun o ho => hno o (List.mem_cons_of_mem op ho)
    cases op with
    | alloc k r s c =>
      simp only [List.foldl_cons, List.countP_cons]
      rw [ih _ hrest]
      simp [cmStep, allocate_citation_id, isAllocOp]
      omega
    | lookup cid =>
      simp only [List.foldl_cons, List.countP_cons]
      rw [ih _ hrest]
      simp [cmStep, isAllocOp]
    | getAll =>
      simp only [List.foldl_cons, List.countP_cons]
      rw [ih _ hrest]
      simp [cmStep, isAllocOp]
    | reset => exact absurd rfl (hno CMOp.reset (List.mem_cons_self _ _))

theorem cmRun_reset_split (pre post : List CMOp) :
    cmRun (pre ++ CMOp.reset :: post) = post.foldl cmStep cmInit := by
  unfold cmRun
  rw [List.foldl_append, List.foldl_cons]
  rfl

/-- Claim C1: citation-registry invariant.  For every call sequence the
registry's key list (in insertion order) is exactly `[1] … [counter]`
(hence its key set is `\x7b[1],…,[counter]\x7d`, contiguous, increasing,
with no id reused); after a reset, the counter equals the number of
allocations since that reset, and the next allocation — the `(n+1)`-st
since the reset — returns `[n+1]`. -/
theorem c1_citation_registry_invariant
    (ops pre post : List CMOp) (k : String) (r s c : Option String)
    (hpost : ∀ op ∈ post, op ≠ CMOp.reset) :
    akeys (cmRun ops).citation_map =
      (List.range (cmRun ops).citation_counter).map (fun i => citeId (i + 1))
    ∧ (cmRun (pre ++ CMOp.reset :: post)).citation_counter =
        post.countP (fun op => isAllocOp op)
    ∧ (allocate_citation_id (cmRun (pre ++ CMOp.reset :: post)) k r s c).2 =
        citeId (post.countP (fun op => isAllocOp op) + 1) := by
  have hcount : (cmRun (pre ++ CMOp.reset :: post)).citation_counter =
      post.countP (fun op => isAllocOp op) := by
    rw [cmRun_reset_split, counter_foldl_no_reset post cmInit hpost]
    simp [cmInit]
  refine ⟨cmKeyInv_foldl ops cmInit cmKeyInv_init, hcount, ?_⟩
  show citeId ((cmRun (pre ++ CMOp.reset :: post)).citation_counter + 1) = _
  rw [hcount]

/-- Witness for C1 at a concrete call sequence: one allocation before the
reset, then two allocations (with an interleaved lookup) after it. -/
theorem c1_citation_registry_invariant_witness :
    (∀ op ∈ [CMOp.alloc "b" none none none, CMOp.lookup "x",
        CMOp.alloc "c" none none none], op ≠ CMOp.reset)
    ∧ (cmRun ([CMOp.alloc "a" none none none] ++ CMOp.reset ::
        [CMOp.alloc "b" none none none, CMOp.lookup "x",
          CMOp.alloc "c" none none none])).citation_counter = 2
    ∧ (allocate_citation_id (cmRun ([CMOp.alloc "a" none none none] ++
        CMOp.reset :: [CMOp.alloc "b" none none none, CMOp.lookup "x",
          CMOp.alloc "c" none none none])) "d" none none none).2 = citeId 3 := by
  have h := c1_citation_registry_invariant []
    [CMOp.alloc "a" none none none]
    [CMOp.alloc "b" none none none, CMOp.lookup "x",
      CMOp.alloc "c" none none none] "d" none none none (by decide)
  exact ⟨by decide, h.2.1.trans (by decide), h.2.2.trans (by rfl)⟩

/-! ## Claim C7 support: the joined key list names each member -/

theorem joinComma_mem_occurs (ms : List String) (k : String) (hk : k ∈ ms) :
    ∃ a b, joinComma ms = a ++ k.data ++ b := by
  induction ms with
  | nil => cases hk
  | cons s rest ih =>
    cases rest with
    | nil =>
      have : k = s := by simpa using hk
      exact ⟨[], [], by simp [joinComma, this]⟩
    | cons t ts =>
      rcases List.mem_cons.mp hk with rfl | hk'
      · exact ⟨[], ',' :: ' ' :: joinComma (t :: ts), by simp [joinComma]⟩
      · rcases ih hk' with ⟨a, b, hab⟩
        refine ⟨s.data ++ ',' :: ' ' :: a, b, ?_⟩
        simp [joinComma, hab]

/-- Claim C7: `ensure_keys` returns the mapping unchanged when every
required key is present, and otherwise fails with an error message that
names every missing key (each missing key occurs verbatim in the
message). -/
theorem c7_ensure_keys_names_all_missing
    (data : List (String × Json)) (keys : List String) :
    ((∀ k ∈ keys, hasKey data k = true) → ensure_keys data keys = .ok data)
    ∧ (∀ k ∈ keys, hasKey data k = false →
        ∃ msg, ensure_keys data keys = .error msg
          ∧ ∀ k2 ∈ keys, hasKey data k2 = false →
              ∃ a b, msg = a ++ k2.data ++ b) := by
  constructor
  · intro hall
    have hm : keys.filter (fun k => ! hasKey data k) = [] := by
      rw [List.filter_eq_nil_iff]
      intro k hk
      simp [hall k hk]
    simp [ensure_keys, hm]
  · intro k hk hmiss
    have hkm : k ∈ keys.filter (fun k => ! hasKey data k) :=
      List.mem_filter.mpr ⟨hk, by simp [hmiss]⟩
    have hne : keys.filter (fun k => ! hasKey data k) ≠ [] := by
      intro he
      rw [he] at hkm
      cases hkm
    refine ⟨"Missing required keys: ".data ++
      joinComma (keys.filter (fun k => ! hasKey data k)), ?_, ?_⟩
    · simp [ensure_keys, hne]
    · intro k2 hk2 hmiss2
      have hk2m : k2 ∈ keys.filter (fun k => ! hasKey data k) :=
        List.mem_filter.mpr ⟨hk2, by simp [hmiss2]⟩
      rcases joinComma_mem_occurs _ k2 hk2m with ⟨a, b, hab⟩
      exact ⟨"Missing required keys: ".data ++ a, b, by simp [hab]⟩

/-- Witness for C7: `\x7ba: 1\x7d` against required keys `\x7ba,b,c\x7d`
fails with a message naming both `b` and `c`. -/
theorem c7_ensure_keys_names_all_missing_witness :
    hasKey [("a", Json.num 1)] "b" = false
    ∧ ∃ msg, ensure_keys [("a", Json.num 1)] ["a", "b", "c"] = .error msg
        ∧ (∃ a b, msg = a ++ "b".data ++ b) ∧ ∃ a b, msg = a ++ "c".data ++ b := by
  have h := (c7_ensure_keys_names_all_missing [("a", Json.num 1)]
    ["a", "b", "c"]).2 "b" (by simp) (by rfl)
  rcases h with ⟨msg, hmsg, hall⟩
  exact ⟨rfl, msg, hmsg, hall "b" (by simp) (by rfl), hall "c" (by simp) (by rfl)⟩

/-! ## Claims C4 and C6: progress-hub lemmas -/

theorem alookup_mem {κ α : Type} [BEq κ]
    (m : List (κ × α)) (k : κ) (v : α) (h : alookup m k = some v) :
    ∃ k2, (k2, v) ∈ m := by
  induction m with
  | nil => cases h
  | cons p rest ih =>
    by_cases hp : (p.1 == k) = true
    · refine ⟨p.1, ?_⟩
      have : some p.2 = some v := by simpa [alookup, hp] using h
      have hv : p.2 = v := Option.some.inj this
      rw [← hv]
      exact List.mem_cons_self p rest
    · have h' : alookup rest k = some v := by
        simpa [alookup, hp] using h
      rcases ih h' with ⟨k2, hk2⟩
      exact ⟨k2, List.mem_cons_of_mem p hk2⟩

/-- Channels present in the hub map always carry a non-empty subscriber
set. -/
def hubInv (st : HubState) : Prop := ∀ p ∈ st, p.2 ≠ []

theorem hubInv_aset (st : HubState) (kb : String) (subs : List Nat)
    (h : hubInv st) (hne : subs ≠ []) : hubInv (aset st kb subs) := by
  intro p hp
  rcases mem_aset st kb subs p hp with rfl | hp2
  · exact hne
  · exact h p hp2

theorem hubInv_step (st : HubState) (op : HubOp) (h : hubInv st) :
    hubInv (hubStep st op) := by
  cases op with
  | connect kb ws =>
    show hubInv (hubConnect st kb ws)
    unfold hubConnect
    cases hl : alookup st kb with
    | none => exact hubInv_aset st kb [ws] h (by simp)
    | some subs =>
      rcases alookup_mem st kb subs hl with ⟨k2, hk2⟩
      have hsubs : subs ≠ [] := h (k2, subs) hk2
      by_cases hw : ws ∈ subs
      · simpa [hw] using hubInv_aset st kb subs h hsubs
      · simpa [hw] using hubInv_aset st kb (subs ++ [ws]) h (by simp)
  | disconnect kb ws =>
    show hubInv (hubDisconnect st kb ws)
    unfold hubDisconnect
    cases hl : alookup st kb with
    | none => exact h
    | some subs =>
      by_cases he : subs.filter (fun w => w ≠ ws) = []
      · simp only [he, if_true]
        exact fun p hp => h p (mem_aremove st kb p hp)
      · simp only [he, if_false]
        exact hubInv_aset st kb _ h he
  | broadcast kb fails =>
    show hubInv (hubBroadcast st kb fails).1
    unfold hubBroadcast
    cases hl : alookup st kb with
    | none => exact h
    | some subs =>
      by_cases he : subs.filter (fun w => ! fails w) = []
      · simp only [he, if_true]
        exact fun p hp => h p (mem_aremove st kb p hp)
      · simp only [he, if_false]
        exact hubInv_aset st kb _ h he

theorem hubInv_foldl (ops : List HubOp) :
    ∀ st, hubInv st → hubInv (ops.foldl hubStep st) := by
  induction ops with
  | nil => exact fun st h => h
  | cons op rest ih => exact fun st h => ih (hubStep st op) (hubInv_step st op h)

/-- Claim C6: hub invariant — after any operation sequence every channel
present in the map has a non-empty subscriber set (empty channels are
deleted by `disconnect` and by broadcast pruning), and the count of a
channel absent from the map is 0. -/
theorem c6_hub_no_empty_channels (ops : List HubOp) (st : HubState) (kb : String) :
    (∀ p ∈ hubRun ops, p.2 ≠ [])
    ∧ (alookup st kb = none → get_connection_count st kb = 0) := by
  constructor
  · exact hubInv_foldl ops [] (fun p hp => absurd hp (List.not_mem_nil p))
  · intro h
    simp [get_connection_count, h]

/-- Witness for C6: after two subscribes and one unsubscribe the channel
entry is `("kb1", [2])`, whose subscriber set is non-empty; a channel not
in the map has count 0. -/
theorem c6_hub_no_empty_channels_witness :
    ("kb1", [2]) ∈ hubRun [HubOp.connect "kb1" 1, HubOp.connect "kb1" 2,
        HubOp.disconnect "kb1" 1]
    ∧ ([2] : List Nat) ≠ []
    ∧ alookup ([("other", [5])] : HubState) "kb1" = none
    ∧ get_connection_count ([("other", [5])] : HubState) "kb1" = 0 := by
  refine ⟨by decide, ?_, rfl, ?_⟩
  · exact (c6_hub_no_empty_channels [HubOp.connect "kb1" 1, HubOp.connect "kb1" 2,
      HubOp.disconnect "kb1" 1] [("other", [5])] "kb1").1 ("kb1", [2]) (by decide)
  · exact (c6_hub_no_empty_channels [] [("other", [5])] "kb1").2 rfl

/-- Claim C4: broadcast failure policy — broadcasting to an absent
channel is a silent no-op; otherwise delivery is attempted to every
current subscriber independently (the successful deliveries are exactly
the non-failing subscribers, regardless of other failures), the failing
subscribers — and only they — are pruned, the channel's count afterwards
is the number of surviving subscribers, and the channel entry is removed
when pruning empties it.  No delivery failure escapes to the caller:
`hubBroadcast` is a total function. -/
theorem c4_broadcast_prunes_only_failed
    (st : HubState) (kb : String) (fails : Nat → Bool) :
    (alookup st kb = none → hubBroadcast st kb fails = (st, []))
    ∧ (∀ subs, alookup st kb = some subs →
        (hubBroadcast st kb fails).2 = subs.filter (fun w => ! fails w)
        ∧ get_connection_count (hubBroadcast st kb fails).1 kb =
            (subs.filter (fun w => ! fails w)).length
        ∧ alookup (hubBroadcast st kb fails).1 kb =
            (if subs.filter (fun w => ! fails w) = [] then none
             else some (subs.filter (fun w => ! fails w)))) := by
  constructor
  · intro h
    simp [hubBroadcast, h]
  · intro subs hl
    by_cases he : subs.filter (fun w => ! fails w) = []
    · refine ⟨by simp [hubBroadcast, hl, he], ?_, ?_⟩
      · simp [hubBroadcast, hl, he, get_connection_count, alookup_aremove_self]
      · simp [hubBroadcast, hl, he, alookup_aremove_self]
    · refine ⟨by simp [hubBroadcast, hl, he], ?_, ?_⟩
      · simp [hubBroadcast, hl, he, get_connection_count, alookup_aset_self]
      · simp [hubBroadcast, hl, he, alookup_aset_self]

/-- Witness for C4: three subscribers on `kb1`, the second of which has a
failing sink: delivery succeeds to the other two, the count drops to 2,
and the surviving set is exactly `\x7b1, 3\x7d`. -/
theorem c4_broadcast_prunes_only_failed_witness :
    alookup ([("kb1", [1, 2, 3])] : HubState) "kb1" = some [1, 2, 3]
    ∧ (hubBroadcast [("kb1", [1, 2, 3])] "kb1" (fun w => w == 2)).2 = [1, 3]
    ∧ get_connection_count
        (hubBroadcast [("kb1", [1, 2, 3])] "kb1" (fun w => w == 2)).1 "kb1" = 2 := by
  have h := (c4_broadcast_prunes_only_failed [("kb1", [1, 2, 3])] "kb1"
    (fun w => w == 2)).2 [1, 2, 3] rfl
  exact ⟨rfl, h.1.trans (by decide), h.2.1.trans (by decide)⟩

/-! ## Claims C3 and C5: performance-tracker span lifecycle -/

/-- Amended C3: `end_tracking` on a name with no registered span is a
no-op leaving the tracker unchanged; `end_tracking` on a registered span
folds exactly that span's metrics into the totals once per call and
re-registers the closed span.  (The span is not removed on close, so —
contrary to the original claim — a second `end_tracking` folds the
recomputed metrics again; see the counterexample.) -/
theorem c3_end_tracking_folds_per_call :
    (∀ (m : PerformanceMonitor) (name : String) (now : Int),
        alookup m.metrics name = none → end_tracking m name now = m)
    ∧ (∀ (m : PerformanceMonitor) (name : String) (now : Int)
          (met : PerformanceMetrics),
        m.enabled = true → alookup m.metrics name = some met →
        met.start_time ≠ 0 → now - met.start_time ≠ 0 →
        alookup (end_tracking m name now).metrics name = some (markEnd met now)
        ∧ (end_tracking m name now).total_duration =
            m.total_duration + (now - met.start_time)
        ∧ (end_tracking m name now).total_tokens =
            m.total_tokens + met.total_tokens
        ∧ (end_tracking m name now).total_api_calls =
            m.total_api_calls + met.api_calls
        ∧ (end_tracking m name now).total_errors =
            m.total_errors + met.errors) := by
  constructor
  · intro m name now h
    unfold end_tracking
    cases hen : m.enabled
    · simp
    · simp [h]
  · intro m name now met hen hl hs hd
    unfold end_tracking
    rw [hen, hl]
    simp only [if_true]
    have hdur : (markEnd met now).duration = some (now - met.start_time) := by
      simp [markEnd, hs]
    rw [hdur]
    dsimp only
    rw [if_pos hd]
    exact ⟨alookup_aset_self m.metrics name (markEnd met now), rfl, rfl, rfl, rfl⟩

/-- Counterexample to C3 as stated: a span started at time 1 and ended at
time 3 folds duration 2 into the totals; a second `end_tracking` of the
same name does not leave the tracker unchanged — it recomputes the
duration (now 4) and folds the span's metrics a second time, for a total
of 6. -/
theorem c3_counterexample :
    (end_tracking ((start_tracking { enabled := true } "a" 1).1) "a" 3).total_duration = 2
    ∧ (end_tracking (end_tracking ((start_tracking { enabled := true } "a" 1).1) "a" 3)
        "a" 5).total_duration = 6
    ∧ end_tracking (end_tracking ((start_tracking { enabled := true } "a" 1).1) "a" 3)
        "a" 5
      ≠ end_tracking ((start_tracking { enabled := true } "a" 1).1) "a" 3 := by
  refine ⟨rfl, rfl, fun h => ?_⟩
  have h2 := congrArg PerformanceMonitor.total_duration h
  have e1 : (end_tracking ((start_tracking { enabled := true } "a" 1).1) "a"
      3).total_duration = 2 := rfl
  have e2 : (end_tracking (end_tracking ((start_tracking { enabled := true } "a" 1).1)
      "a" 3) "a" 5).total_duration = 6 := rfl
  rw [e1, e2] at h2
  exact absurd h2 (by decide)

/-- Witness for the amended C3: ending an unknown name leaves the fresh
tracker unchanged, and ending a span started at time 1 at time 3 folds
duration 2 into the totals. -/
theorem c3_end_tracking_folds_per_call_witness :
    alookup ({ enabled := true } : PerformanceMonitor).metrics "b" = none
    ∧ end_tracking { enabled := true } "b" 7 = { enabled := true }
    ∧ (end_tracking ((start_tracking { enabled := true } "a" 1).1) "a"
        3).total_duration =
      ((start_tracking { enabled := true } "a" 1).1).total_duration + 2 := by
  refine ⟨rfl, c3_end_tracking_folds_per_call.1 { enabled := true } "b" 7 rfl, ?_⟩
  have h := c3_end_tracking_folds_per_call.2
    ((start_tracking { enabled := true } "a" 1).1) "a" 3 (freshSpan "a" 1)
    rfl rfl (by decide) (by decide)
  exact h.2.1

/-- Closing a registered span re-registers its `markEnd` image whatever
the computed duration is (whether or not the totals are folded). -/
theorem end_tracking_registers_closed_span (m : PerformanceMonitor)
    (name : String) (now : Int) (met : PerformanceMetrics)
    (hen : m.enabled = true) (hl : alookup m.metrics name = some met) :
    alookup (end_tracking m name now).metrics name = some (markEnd met now) := by
  unfold end_tracking
  simp only [hen, eq_self_iff_true, if_true, hl]
  cases hdm : (markEnd met now).duration with
  | none => exact alookup_aset_self m.metrics name (markEnd met now)
  | some d =>
    dsimp only
    by_cases hd : d ≠ 0
    · rw [if_pos hd]
      exact alookup_aset_self m.metrics name (markEnd met now)
    · rw [if_neg hd]
      exact alookup_aset_self m.metrics name (markEnd met now)

/-- Claim C5: `track` (and the decorator form) provides
release-on-every-exit-path semantics when tracking is enabled: the
protected operation's outcome is returned or re-raised unchanged; the
span is closed on both paths (its `end_time` and a non-negative
`duration` are set, assuming a positive start time and a monotone clock);
and on the error path the span's error count is incremented exactly once
relative to the span the operation left behind. -/
theorem c5_track_closes_span_on_every_path {ε α : Type}
    (m : PerformanceMonitor) (name : String) (tS tE : Int)
    (body : PerformanceMetrics → PerformanceMetrics) (outcome : Except ε α)
    (hen : m.enabled = true)
    (hbody : (body (freshSpan name tS)).start_time = tS)
    (hS : tS ≠ 0) (hle : tS ≤ tE) :
    (track m name tS tE body outcome).2 = outcome
    ∧ ∃ metF, alookup (track m name tS tE body outcome).1.metrics name = some metF
        ∧ metF.end_time = some tE
        ∧ metF.duration = some (tE - tS)
        ∧ 0 ≤ tE - tS
        ∧ metF.errors = (body (freshSpan name tS)).errors +
            (match outcome with | .ok _ => 0 | .error _ => 1) := by
  unfold track start_tracking
  simp only [hen, eq_self_iff_true, if_true]
  cases outcome with
  | ok a =>
    refine ⟨rfl, markEnd (body (freshSpan name tS)) tE, ?_, rfl, ?_, by omega, ?_⟩
    · exact end_tracking_registers_closed_span _ name tE (body (freshSpan name tS))
        rfl (alookup_aset_self _ _ _)
    · simp [markEnd, hbody, hS]
    · simp [markEnd]
  | error e =>
    rw [alookup_aset_self (aset m.metrics name (freshSpan name tS)) name
      (body (freshSpan name tS))]
    dsimp only
    refine ⟨rfl, markEnd (addError (body (freshSpan name tS))) tE, ?_, rfl, ?_,
      by omega, ?_⟩
    · exact end_tracking_registers_closed_span _ name tE
        (addError (body (freshSpan name tS))) rfl (alookup_aset_self _ _ _)
    · simp only [markEnd, addError]
      rw [if_pos (by rw [hbody]; exact hS), hbody]
    · simp [markEnd, addError]

/-- Witness for C5: an operation raising `"boom"` inside a span opened at
time 1 and closed at time 3 re-raises the error, and leaves a closed span
with duration 2 and exactly one recorded error. -/
theorem c5_track_closes_span_on_every_path_witness :
    ((1 : Int) ≠ 0 ∧ (1 : Int) ≤ 3)
    ∧ (track { enabled := true } "x" 1 3 id
        (Except.error "boom" : Except String Unit)).2 = Except.error "boom"
    ∧ ∃ metF, alookup (track { enabled := true } "x" 1 3 id
          (Except.error "boom" : Except String Unit)).1.metrics "x" = some metF
        ∧ metF.duration = some 2 ∧ metF.errors = 1 := by
  have h := c5_track_closes_span_on_every_path { enabled := true } "x" 1 3 id
    (Except.error "boom" : Except String Unit) rfl rfl (by decide) (by decide)
  rcases h.2 with ⟨metF, h1, h2, h3, h4, h5⟩
  exact ⟨⟨by decide, by decide⟩, h.1, metF, h1, h3.trans (by decide),
    h5.trans (by decide)⟩

/-! ## Claim C10: the snapshot is a shallow copy -/

/-- Counterexample to C10 as stated: after one allocation, the snapshot
returned by `get_all_citations` shares the record object (`dict.copy()`
is shallow), so writing a field of the record reached through the
snapshot changes what a subsequent `get_citation_info` lookup returns. -/
theorem c10_counterexample :
    dictGet (cmHeapGetAll (cmHeapAlloc cmHeapInit "k1" none none none).1).1
        (cmHeapGetAll (cmHeapAlloc cmHeapInit "k1" none none none).1).2 "[1]"
      = some 1
    ∧ cmHeapLookup
        (recSetField (cmHeapGetAll (cmHeapAlloc cmHeapInit "k1" none none none).1).1
          1 "source" (.vstr "hacked")) "[1]"
      ≠ cmHeapLookup (cmHeapAlloc cmHeapInit "k1" none none none).1 "[1]" := by
  constructor
  · rfl
  · decide

/-- Amended C10: the snapshot returned by `get_all_citations` is a fresh
top-level dict object, distinct from the registry's own, holding the same
entries; top-level mutation of the snapshot (rebinding or deleting its
entries) leaves the registry's counter and every lookup unchanged.  Only
the shared per-citation record objects are mutable through the snapshot
(see the counterexample). -/
theorem c10_snapshot_top_level_isolation (st : CMHeapState) (cid : String)
    (r : Nat) (hfresh : ∀ p ∈ st.dicts, p.1 ≠ st.nextRef)
    (hmap : st.mapRef ≠ st.nextRef) :
    alookup (cmHeapGetAll st).1.dicts (cmHeapGetAll st).2 =
      some ((alookup st.dicts st.mapRef).getD [])
    ∧ (cmHeapGetAll st).2 ≠ st.mapRef
    ∧ (∀ cid2, cmHeapLookup (dictSetEntry (cmHeapGetAll st).1 (cmHeapGetAll st).2
        cid r) cid2 = cmHeapLookup st cid2)
    ∧ (∀ cid2, cmHeapLookup (dictDelEntry (cmHeapGetAll st).1 (cmHeapGetAll st).2
        cid) cid2 = cmHeapLookup st cid2)
    ∧ (dictSetEntry (cmHeapGetAll st).1 (cmHeapGetAll st).2 cid r).counter
        = st.counter := by
  have hnone : ahas st.dicts st.nextRef = false :=
    (ahas_eq_false_iff st.dicts st.nextRef).mpr hfresh
  have hsnap : alookup (cmHeapGetAll st).1.dicts (cmHeapGetAll st).2 =
      some ((alookup st.dicts st.mapRef).getD []) := by
    simp only [cmHeapGetAll]
    rw [alookup_append_right st.dicts _ st.nextRef hnone]
    simp [alookup]
  have hmaplook : ∀ x : List (String × Nat),
      alookup (aset (cmHeapGetAll st).1.dicts (cmHeapGetAll st).2 x) st.mapRef =
        alookup st.dicts st.mapRef := by
    intro x
    simp only [cmHeapGetAll]
    rw [alookup_aset_ne _ _ _ _ hmap]
    exact alookup_append_single_ne st.dicts st.nextRef st.mapRef _ hmap
  refine ⟨hsnap, Ne.symm hmap, ?_, ?_, rfl⟩
  · intro cid2
    show (alookup ((alookup (aset (cmHeapGetAll st).1.dicts (cmHeapGetAll st).2 _)
        st.mapRef).getD []) cid2).bind (fun rr => alookup st.recs rr) = _
    rw [hmaplook]
    rfl
  · intro cid2
    show (alookup ((alookup (aset (cmHeapGetAll st).1.dicts (cmHeapGetAll st).2 _)
        st.mapRef).getD []) cid2).bind (fun rr => alookup st.recs rr) = _
    rw [hmaplook]
    rfl

/-- Witness for the amended C10 at the one-allocation registry: the
snapshot ref is 2, distinct from the registry dict ref 0, and a top-level
write through the snapshot leaves `get_citation_info "[1]"` unchanged. -/
theorem c10_snapshot_top_level_isolation_witness :
    (∀ p ∈ (cmHeapAlloc cmHeapInit "k1" none none none).1.dicts,
        p.1 ≠ (cmHeapAlloc cmHeapInit "k1" none none none).1.nextRef)
    ∧ (cmHeapGetAll (cmHeapAlloc cmHeapInit "k1" none none none).1).2
        ≠ (cmHeapAlloc cmHeapInit "k1" none none none).1.mapRef
    ∧ cmHeapLookup (dictSetEntry
        (cmHeapGetAll (cmHeapAlloc cmHeapInit "k1" none none none).1).1
        (cmHeapGetAll (cmHeapAlloc cmHeapInit "k1" none none none).1).2
        "[9]" 7) "[1]"
      = cmHeapLookup (cmHeapAlloc cmHeapInit "k1" none none none).1 "[1]" := by
  have h := c10_snapshot_top_level_isolation
    (cmHeapAlloc cmHeapInit "k1" none none none).1 "[9]" 7
    (by decide) (by decide)
  exact ⟨by decide, h.2.1, h.2.2.1 "[1]"⟩

/-! ## Claims C2 and C9: the recovery pipeline -/

/-- Claim C2: `parse_json_response` is total (the model is a function —
no input makes it raise): its result is either a value some string parses
to (a successful tier, including the repair tier) or the caller-supplied
fallback; with no fallback specified, empty/whitespace-only input and any
input on which all tiers fail yield the empty mapping `\x7b\x7d`. -/
theorem c2_recovery_returns_fallback_or_parse (response : List Char)
    (rep : Option (List Char → List Char)) (fb : Json) :
    (parse_json_response response none rep = Json.obj []
      ∨ ∃ s, loads s = some (parse_json_response response none rep))
    ∧ (parse_json_response response (some fb) rep = fb
      ∨ ∃ s, loads s = some (parse_json_response response (some fb) rep))
    ∧ (pyStrip response = [] → parse_json_response response none rep = Json.obj [])
    ∧ (loads (extractedOf response) = none →
        (∀ r, rep = some r → loads (r (extractedOf response)) = none) →
        parse_json_response response none rep = Json.obj []) := by
  by_cases hs : pyStrip response = []
  · refine ⟨Or.inl ?_, Or.inl ?_, fun _ => ?_, fun _ _ => ?_⟩ <;>
      simp [parse_json_response, hs]
  · cases hl : loads (extractedOf response) with
    | some v =>
      have he : ∀ fbo : Option Json, parse_json_response response fbo rep = v := by
        intro fbo
        simp [parse_json_response, hs, hl]
      refine ⟨Or.inr ⟨extractedOf response, by rw [he]; exact hl⟩,
        Or.inr ⟨extractedOf response, by rw [he]; exact hl⟩,
        fun h => absurd h hs, fun h _ => ?_⟩
      exact Option.noConfusion h
    | none =>
      cases rep with
      | none =>
        have he : ∀ fbo : Option Json,
            parse_json_response response fbo none = fbo.getD (Json.obj []) := by
          intro fbo
          cases fbo <;> simp [parse_json_response, hs, hl]
        exact ⟨Or.inl (he none), Or.inl (he (some fb)),
          fun h => absurd h hs, fun _ _ => he none⟩
      | some r =>
        cases hr : loads (r (extractedOf response)) with
        | some v =>
          have he : ∀ fbo : Option Json,
              parse_json_response response fbo (some r) = v := by
            intro fbo
            simp [parse_json_response, hs, hl, hr]
          refine ⟨Or.inr ⟨r (extractedOf response), by rw [he]; exact hr⟩,
            Or.inr ⟨r (extractedOf response), by rw [he]; exact hr⟩,
            fun h => absurd h hs, fun _ hall => ?_⟩
          exact Option.noConfusion (hr.symm.trans (hall r rfl))
        | none =>
          have he : ∀ fbo : Option Json,
              parse_json_response response fbo (some r) = fbo.getD (Json.obj []) := by
            intro fbo
            cases fbo <;> simp [parse_json_response, hs, hl, hr]
          exact ⟨Or.inl (he none), Or.inl (he (some fb)),
            fun h => absurd h hs, fun _ _ => he none⟩

/-- Witness for C2: whitespace-only input and arbitrary non-JSON prose,
each with no fallback and no repair capability, recover to the empty
mapping. -/
theorem c2_recovery_returns_fallback_or_parse_witness :
    pyStrip ("   ".data) = []
    ∧ parse_json_response ("   ".data) none none = Json.obj []
    ∧ loads (extractedOf ("this is not structured data at all.".data)) = none
    ∧ parse_json_response ("this is not structured data at all.".data) none none
        = Json.obj [] := by
  refine ⟨rfl, ?_, rfl, ?_⟩
  · exact (c2_recovery_returns_fallback_or_parse ("   ".data) none
      Json.null).2.2.1 rfl
  · exact (c2_recovery_returns_fallback_or_parse
      ("this is not structured data at all.".data) none Json.null).2.2.2 rfl
      (fun r h => by cases h)

/-- Claim C9: strict tier order.  `extract_json_from_text` equals the
spec-side pipeline that tries, in order, code-fence extraction, direct
parse, the first `\x7b...\x7d` fragment (greedy outermost), then the
first `[...]` fragment, stopping at the first success; and
`parse_json_response` (after its fence-extraction step) tries direct
parse then repair, stopping at the first success, falling back
otherwise. -/
theorem c9_tier_order_refinement (text response : List Char) (fb : Option Json)
    (rep : Option (List Char → List Char)) :
    extract_json_from_text text = firstSome specTierOrder text
    ∧ parse_json_response response fb rep =
        (if pyStrip response = [] then (match fb with | none => Json.obj [] | some v => v)
         else match firstSome [fun t => loads t,
                fun t => rep.bind (fun r => loads (r t))] (extractedOf response) with
              | some v => v
              | none => match fb with | none => Json.obj [] | some v => v) := by
  constructor
  · by_cases ht : text = []
    · subst ht
      rfl
    · unfold extract_json_from_text
      rw [if_neg ht]
      rfl
  · by_cases hs : pyStrip response = []
    · simp [parse_json_response, hs]
    · rw [if_neg hs]
      unfold parse_json_response
      rw [if_neg hs]
      dsimp only
      cases hl : loads (extractedOf response) with
      | some v => simp [firstSome, hl]
      | none =>
        cases rep with
        | none => simp [firstSome, hl]
        | some r =>
          cases hr : loads (r (extractedOf response)) with
          | some v => simp [firstSome, hl, hr]
          | none => simp [firstSome, hl, hr]

/-! ## Claim C8 support: computing the fence capture on wrapped input -/

theorem splitFirst_prefix_case (pat cs : List Char)
    (h : pat.isPrefixOf cs = true) :
    splitFirst pat cs = some ([], cs.drop pat.length) := by
  cases cs with
  | nil => simp [splitFirst, h]
  | cons c rest => simp [splitFirst, h]

theorem splitFirst_pat_append (pat ys : List Char) :
    splitFirst pat (pat ++ ys) = some ([], ys) := by
  rw [splitFirst_prefix_case pat (pat ++ ys)
    (List.isPrefixOf_iff_prefix.mpr (List.prefix_append pat ys))]
  rw [List.drop_left]

theorem splitFirst_append_of_no_hit (pat ys : List Char) :
    ∀ xs, (∀ t, t <:+ xs → t ≠ [] → pat.isPrefixOf (t ++ pat ++ ys) = false) →
      splitFirst pat (xs ++ pat ++ ys) = some (xs, ys) := by
  intro xs
  induction xs with
  | nil =>
    intro _
    simpa using splitFirst_pat_append pat ys
  | cons c rest ih =>
    intro h
    have hc : pat.isPrefixOf ((c :: rest) ++ pat ++ ys) = false :=
      h (c :: rest) (List.suffix_refl _) (by simp)
    have hrest : ∀ t, t <:+ rest → t ≠ [] → pat.isPrefixOf (t ++ pat ++ ys) = false := by
      intro t ht htne
      rcases ht with ⟨u, hu⟩
      exact h t ⟨c :: u, by rw [← hu]; rfl⟩ htne
    show splitFirst pat (c :: (rest ++ pat ++ ys)) = some (c :: rest, ys)
    rw [splitFirst]
    rw [show pat.isPrefixOf (c :: (rest ++ pat ++ ys)) = false from hc]
    simp only [Bool.false_eq_true, if_false]
    rw [ih hrest]
    rfl

theorem no_hit_of_splitFirst_none (pat : List Char) :
    ∀ cs, splitFirst pat cs = none → ∀ t, t <:+ cs → pat.isPrefixOf t = false := by
  intro cs
  induction cs with
  | nil =>
    intro h t ht
    have ht2 : t = [] := List.suffix_nil.mp ht
    subst ht2
    cases hp : pat.isPrefixOf ([] : List Char)
    · rfl
    · rw [splitFirst, if_pos hp] at h
      cases h
  | cons c rest ih =>
    intro h t ht
    have h1 : pat.isPrefixOf (c :: rest) = false := by
      cases hp : pat.isPrefixOf (c :: rest)
      · rfl
      · rw [splitFirst, if_pos hp] at h
        cases h
    have h2 : splitFirst pat rest = none := by
      cases hsp : splitFirst pat rest
      · rfl
      · rw [splitFirst, h1] at h
        simp [hsp] at h
    rcases List.suffix_cons_iff.mp ht with rfl | ht2
    · exact h1
    · exact ih h2 t ht2

theorem suffix_concat_decomp (l : List Char) (a : Char) (t : List Char)
    (h : t <:+ l ++ [a]) : t = [] ∨ ∃ u, t = u ++ [a] ∧ u <:+ l := by
  rcases h with ⟨w, hw⟩
  by_cases ht : t = []
  · exact Or.inl ht
  · right
    have hsplit : t.dropLast ++ [t.getLast ht] = t := List.dropLast_append_getLast ht
    rw [← hsplit, ← List.append_assoc] at hw
    have hinj := List.append_inj' hw (by rfl)
    have hlast : t.getLast ht = a := by
      have := hinj.2
      simpa using this
    rw [hlast] at hsplit
    exact ⟨t.dropLast, hsplit.symm, ⟨w, hinj.1⟩⟩

theorem fence_no_hit (s : List Char) (hno : splitFirst fence3 s = none) :
    ∀ t, t <:+ s ++ ['\n'] → t ≠ [] →
      fence3.isPrefixOf (t ++ fence3 ++ []) = false := by
  intro t ht htne
  rcases suffix_concat_decomp s '\n' t ht with rfl | ⟨u, rfl, hu⟩
  · exact absurd rfl htne
  · simp only [List.append_nil, List.append_assoc, List.singleton_append]
    cases u with
    | nil => decide
    | cons x u2 =>
      cases u2 with
      | nil =>
        show fence3.isPrefixOf (x :: '\n' :: fence3) = false
        simp [fence3, List.isPrefixOf, show (bq == '\n') = false from by decide]
      | cons y u3 =>
        cases u3 with
        | nil =>
          show fence3.isPrefixOf (x :: y :: '\n' :: fence3) = false
          simp [fence3, List.isPrefixOf, show (bq == '\n') = false from by decide]
        | cons z u4 =>
          show fence3.isPrefixOf
            (x :: y :: z :: (u4 ++ '\n' :: fence3)) = false
          have hs3 : fence3.isPrefixOf (x :: y :: z :: u4) = false :=
            no_hit_of_splitFirst_none fence3 s hno (x :: y :: z :: u4) hu
          simp only [fence3, List.isPrefixOf] at hs3 ⊢
          simpa using hs3

theorem pyStrip_parts (s : List Char) (h : pyStrip s = s) :
    s.dropWhile pyWs = s ∧ s.rdropWhile pyWs = s := by
  unfold pyStrip at h
  have hsuf : s.dropWhile pyWs <:+ s := List.dropWhile_suffix pyWs
  have hpre : s <+: s.dropWhile pyWs := by
    have hp := List.rdropWhile_prefix pyWs (s.dropWhile pyWs)
    rw [h] at hp
    exact hp
  have hlen : s.length = (s.dropWhile pyWs).length :=
    Nat.le_antisymm hpre.length_le hsuf.length_le
  have h1 : s.dropWhile pyWs = s := (hpre.eq_of_length hlen).symm
  rw [h1] at h
  exact ⟨h1, h⟩

theorem loads_ne_nil (s : List Char) (v : Json) (h : loads s = some v) :
    s ≠ [] := by
  intro he
  subst he
  exact Option.noConfusion ((show loads ([] : List Char) = none from rfl).symm.trans h)

theorem head_not_ws (c : Char) (s2 : List Char)
    (h : (c :: s2).dropWhile pyWs = c :: s2) : pyWs c = false := by
  cases hc : pyWs c
  · rfl
  · rw [List.dropWhile_cons, hc] at h
    simp only [if_true] at h
    have hlen := congrArg List.length h
    have hle := (List.dropWhile_sublist (l := s2) pyWs).length_le
    simp at hlen
    omega

theorem wrapped_eq (s : List Char) :
    ("```json\n".data) ++ s ++ ("\n```".data) =
      fence3 ++ (jsonTag ++ ('\n' :: (s ++ ['\n'] ++ fence3))) := by
  have h1 : "```json\n".data = fence3 ++ jsonTag ++ ['\n'] := by decide
  have h2 : "\n```".data = ['\n'] ++ fence3 := by decide
  rw [h1, h2]
  simp [List.append_assoc]

theorem fenceCapture_wrapped (s : List Char) (hne : s ≠ [])
    (hdw : s.dropWhile pyWs = s) (hno : splitFirst fence3 s = none) :
    fenceCapture (("```json\n".data) ++ s ++ ("\n```".data)) = some (s ++ ['\n']) := by
  rw [wrapped_eq]
  unfold fenceCapture
  rw [splitFirst_pat_append fence3 _]
  dsimp only [Option.bind]
  have htag : jsonTag.isPrefixOf (jsonTag ++ ('\n' :: (s ++ ['\n'] ++ fence3))) = true :=
    List.isPrefixOf_iff_prefix.mpr (List.prefix_append jsonTag _)
  rw [htag]
  simp only [if_true]
  have hdrop4 : (jsonTag ++ ('\n' :: (s ++ ['\n'] ++ fence3))).drop 4 =
      '\n' :: (s ++ ['\n'] ++ fence3) := by
    rfl
  rw [hdrop4]
  obtain ⟨c, s2, rfl⟩ := List.exists_cons_of_ne_nil hne
  have hc : pyWs c = false := head_not_ws c s2 hdw
  have hdw2 : ('\n' :: ((c :: s2) ++ ['\n'] ++ fence3)).dropWhile pyWs =
      (c :: s2) ++ ['\n'] ++ fence3 := by
    rw [List.dropWhile_cons]
    simp only [show pyWs '\n' = true from by decide, if_true]
    rw [List.append_assoc, List.cons_append, List.dropWhile_cons, hc]
    simp [List.append_assoc]
  rw [hdw2]
  have hsplit2 : splitFirst fence3 ((c :: s2) ++ ['\n'] ++ fence3) =
      some ((c :: s2) ++ ['\n'], []) := by
    have he : (c :: s2) ++ ['\n'] ++ fence3 =
        ((c :: s2) ++ ['\n']) ++ fence3 ++ [] := by
      simp
    rw [he]
    exact splitFirst_append_of_no_hit fence3 [] ((c :: s2) ++ ['\n'])
      (fence_no_hit (c :: s2) hno)
  rw [hsplit2]
  rfl

theorem pyStrip_concat_newline (s : List Char) (hne : s ≠ [])
    (hdw : s.dropWhile pyWs = s) (hrd : s.rdropWhile pyWs = s) :
    pyStrip (s ++ ['\n']) = s := by
  unfold pyStrip
  obtain ⟨c, s2, rfl⟩ := List.exists_cons_of_ne_nil hne
  have hc : pyWs c = false := head_not_ws c s2 hdw
  have h1 : ((c :: s2) ++ ['\n']).dropWhile pyWs = (c :: s2) ++ ['\n'] := by
    rw [List.cons_append, List.dropWhile_cons, hc]
    simp
  rw [h1, List.rdropWhile_concat_pos pyWs (c :: s2) '\n' (by decide)]
  exact hrd

theorem extractedOf_wrapped (s : List Char) (hne : s ≠ [])
    (hstrip : pyStrip s = s) (hno : splitFirst fence3 s = none) :
    extractedOf (("```json\n".data) ++ s ++ ("\n```".data)) = s := by
  have hparts := pyStrip_parts s hstrip
  have hcap := fenceCapture_wrapped s hne hparts.1 hno
  have hcon : containsSub fence3 (("```json\n".data) ++ s ++ ("\n```".data)) = true := by
    unfold containsSub
    rw [wrapped_eq, splitFirst_pat_append]
    rfl
  unfold extractedOf
  simp only [hcon, if_true, hcap]
  exact pyStrip_concat_newline s hne hparts.1 hparts.2

/-- Amended C8: for every value `v` and serialization `s` that parses
back to `v` (with no surrounding whitespace, as serializers produce) and
that contains no code-fence delimiter <three backquotes>, recovering `s`
wrapped in a fenced block yields `v`, and recovering the bare `s` yields
`v`.  The fence-free restriction is forced by the counterexample below:
a serialization containing the delimiter derails the markdown-extraction
regex. -/
theorem c8_roundtrip_fence_free (s : List Char) (v : Json) (fb : Option Json)
    (rep : Option (List Char → List Char))
    (hload : loads s = some v) (hstrip : pyStrip s = s)
    (hno : splitFirst fence3 s = none) :
    parse_json_response (("```json\n".data) ++ s ++ ("\n```".data)) fb rep = v
    ∧ parse_json_response s fb rep = v := by
  have hne := loads_ne_nil s v hload
  have hparts := pyStrip_parts s hstrip
  constructor
  · unfold parse_json_response
    have hnstrip : pyStrip (("```json\n".data) ++ s ++ ("\n```".data)) ≠ [] := by
      rw [wrapped_eq]
      unfold pyStrip
      have hdrop : (fence3 ++ (jsonTag ++ ('\n' :: (s ++ ['\n'] ++
          fence3)))).dropWhile pyWs =
          fence3 ++ (jsonTag ++ ('\n' :: (s ++ ['\n'] ++ fence3))) := by
        rw [show fence3 ++ (jsonTag ++ ('\n' :: (s ++ ['\n'] ++ fence3))) =
          bq :: (bq :: bq :: (jsonTag ++ ('\n' :: (s ++ ['\n'] ++ fence3)))) from rfl]
        rw [List.dropWhile_cons]
        simp [show pyWs bq = false from by decide]
      rw [hdrop]
      intro hcontra
      have hall := List.rdropWhile_eq_nil_iff.mp hcontra
      have hbq : pyWs bq = true := hall bq (by
        rw [show fence3 ++ (jsonTag ++ ('\n' :: (s ++ ['\n'] ++ fence3))) =
          bq :: (bq :: bq :: (jsonTag ++ ('\n' :: (s ++ ['\n'] ++ fence3)))) from rfl]
        exact List.mem_cons_self _ _)
      exact absurd hbq (by decide)
    rw [if_neg hnstrip]
    dsimp only
    rw [extractedOf_wrapped s hne hstrip hno, hload]
  · unfold parse_json_response
    have hnstrip2 : pyStrip s ≠ [] := by
      rw [hstrip]
      exact hne
    rw [if_neg hnstrip2]
    dsimp only
    have hext2 : extractedOf s = s := by
      unfold extractedOf
      have hcon : containsSub fence3 s = false := by
        unfold containsSub
        rw [hno]
        rfl
      rw [hcon]
      simp
    rw [hext2, hload]

/-- Witness for the amended C8 at the serialization
`\x7b"a": 1\x7d` of the one-field object. -/
theorem c8_roundtrip_fence_free_witness :
    loads ("\x7b\"a\": 1\x7d".data) = some (Json.obj [("a", Json.num 1)])
    ∧ pyStrip ("\x7b\"a\": 1\x7d".data) = "\x7b\"a\": 1\x7d".data
    ∧ splitFirst fence3 ("\x7b\"a\": 1\x7d".data) = none
    ∧ parse_json_response (("```json\n".data) ++ ("\x7b\"a\": 1\x7d".data) ++
        ("\n```".data)) none none = Json.obj [("a", Json.num 1)]
    ∧ parse_json_response ("\x7b\"a\": 1\x7d".data) none none
        = Json.obj [("a", Json.num 1)] := by
  have h := c8_roundtrip_fence_free ("\x7b\"a\": 1\x7d".data)
    (Json.obj [("a", Json.num 1)]) none none rfl rfl (by decide)
  exact ⟨rfl, rfl, by decide, h.1, h.2⟩

/-- Counterexample to C8 as stated: the JSON string `"```a```"` is a
well-formed serialization that parses back to `Json.str "```a```"`, yet
recovering it wrapped in a fenced block yields the fallback `\x7b\x7d`
(the non-greedy markdown regex closes the capture at the first fence
inside the string, leaving the unparsable fragment `"`), not the value. -/
theorem c8_counterexample :
    loads ("\"```a```\"".data) = some (Json.str "```a```")
    ∧ parse_json_response (("```json\n".data) ++ ("\"```a```\"".data) ++
        ("\n```".data)) none none = Json.obj []
    ∧ Json.obj [] ≠ Json.str "```a```" := by
  refine ⟨rfl, rfl, fun h => Json.noConfusion h⟩
